import Mathlib

set_option maxHeartbeats 1000000

namespace VteUtf8

/-- Automaton states of the table-driven UTF-8 parser.
Modelled from the spec: `src/utf8/mod.rs` imports `State` from a `types`
submodule that is not among the sources; the spec (§3, §4.1) describes the
state set as the ground state plus one state per
(leading-byte-class, remaining-continuation-count) combination, with
dedicated states restricting the second byte after the leading bytes
0xE0, 0xED, 0xF0 and 0xF4. -/
inductive State where
  | Ground
  | Tail3
  | Tail2
  | Tail1
  | U3_2_e0
  | U3_2_ed
  | U4_3_f0
  | U4_3_f4
deriving DecidableEq

/-- Actions of the parser, exactly the ones matched in
`Parser::perform_action` in `src/utf8/mod.rs`. -/
inductive Action where
  | InvalidSequence
  | EmitByte
  | SetByte1
  | SetByte2
  | SetByte2Top
  | SetByte3
  | SetByte3Top
  | SetByte4
deriving DecidableEq

/-- One receiver call made by the parser: either `codepoint(c)` (the scalar
value of the `char` argument) or `invalid_sequence()`.  A decode step is
modelled as returning the list of receiver calls it makes, in order. -/
inductive Event where
  | codepoint (c : Nat)
  | invalidSequence
deriving DecidableEq

/-- The parser state record of `src/utf8/mod.rs`: the partial codepoint
accumulator `point : u32` (modelled as `Nat`; every value the code ever
stores is below 2^21, so no wrap-around is possible) and the current
automaton state. -/
structure Parser where
  point : Nat
  state : State
deriving DecidableEq

/-- Continuation bytes are masked with this value (`src/utf8/mod.rs`). -/
def CONTINUATION_MASK : Nat := 0b00111111

/-- The transition table: (current state, byte) to (next state, action).
Modelled from the spec: `src/utf8/mod.rs` reads `TRANSITIONS` from a
`table` submodule that is not among the sources.  The spec (§4.1) requires
the table to encode the UTF-8 grammar of RFC 3629 purely in its topology:
ASCII emits directly; 2-byte leaders are 0xC2..0xDF; 3-byte leaders are
0xE0 (second byte restricted to 0xA0..0xBF), 0xE1..0xEC, 0xED (second byte
restricted to 0x80..0x9F, excluding surrogates) and 0xEE..0xEF; 4-byte
leaders are 0xF0 (second byte restricted to 0x90..0xBF), 0xF1..0xF3 and
0xF4 (second byte restricted to 0x80..0x8F, capping at U+10FFFF);
continuation bytes are 0x80..0xBF; every other (state, byte) pair routes to
the invalid-sequence action with next state ground. -/
def transitions (s : State) (b : Nat) : State × Action :=
  match s with
  | .Ground =>
      if b ≤ 0x7F then (.Ground, .EmitByte)
      else if b < 0xC2 then (.Ground, .InvalidSequence)
      else if b ≤ 0xDF then (.Tail1, .SetByte2Top)
      else if b = 0xE0 then (.U3_2_e0, .SetByte3Top)
      else if b = 0xED then (.U3_2_ed, .SetByte3Top)
      else if b ≤ 0xEF then (.Tail2, .SetByte3Top)
      else if b = 0xF0 then (.U4_3_f0, .SetByte4)
      else if b ≤ 0xF3 then (.Tail3, .SetByte4)
      else if b = 0xF4 then (.U4_3_f4, .SetByte4)
      else (.Ground, .InvalidSequence)
  | .Tail3 =>
      if 0x80 ≤ b ∧ b ≤ 0xBF then (.Tail2, .SetByte3) else (.Ground, .InvalidSequence)
  | .Tail2 =>
      if 0x80 ≤ b ∧ b ≤ 0xBF then (.Tail1, .SetByte2) else (.Ground, .InvalidSequence)
  | .Tail1 =>
      if 0x80 ≤ b ∧ b ≤ 0xBF then (.Ground, .SetByte1) else (.Ground, .InvalidSequence)
  | .U3_2_e0 =>
      if 0xA0 ≤ b ∧ b ≤ 0xBF then (.Tail1, .SetByte2) else (.Ground, .InvalidSequence)
  | .U3_2_ed =>
      if 0x80 ≤ b ∧ b ≤ 0x9F then (.Tail1, .SetByte2) else (.Ground, .InvalidSequence)
  | .U4_3_f0 =>
      if 0x90 ≤ b ∧ b ≤ 0xBF then (.Tail2, .SetByte3) else (.Ground, .InvalidSequence)
  | .U4_3_f4 =>
      if 0x80 ≤ b ∧ b ≤ 0x8F then (.Tail2, .SetByte3) else (.Ground, .InvalidSequence)

/-- `Parser::new` from `src/utf8/mod.rs`: ground state, zero accumulator. -/
def Parser.new : Parser := { point := 0, state := .Ground }

/-- `Parser::perform_action` from `src/utf8/mod.rs`, with the receiver
calls it makes returned as the event list.  The `char` conversion at
`SetByte1` is the unchecked `char::from_u32_unchecked`, which simply
reinterprets the accumulator value, so the emitted event carries the raw
accumulator value. -/
def performAction (p : Parser) (byte : Nat) (action : Action) : Parser × List Event :=
  match action with
  | .InvalidSequence => ({ p with point := 0 }, [.invalidSequence])
  | .EmitByte => (p, [.codepoint byte])
  | .SetByte1 =>
      ({ p with point := 0 }, [.codepoint (p.point ||| (byte &&& CONTINUATION_MASK))])
  | .SetByte2 => ({ p with point := p.point ||| ((byte &&& CONTINUATION_MASK) <<< 6) }, [])
  | .SetByte2Top => ({ p with point := p.point ||| ((byte &&& 0b00011111) <<< 6) }, [])
  | .SetByte3 => ({ p with point := p.point ||| ((byte &&& CONTINUATION_MASK) <<< 12) }, [])
  | .SetByte3Top => ({ p with point := p.point ||| ((byte &&& 0b00001111) <<< 12) }, [])
  | .SetByte4 => ({ p with point := p.point ||| ((byte &&& 0b00000111) <<< 18) }, [])

/-- `Parser::advance` from `src/utf8/mod.rs`: look up the transition for
(current state, byte), perform the action, then set the new state. -/
def advance (p : Parser) (b : Nat) : Parser × List Event :=
  ({ (performAction p b (transitions p.state b).2).1 with state := (transitions p.state b).1 },
   (performAction p b (transitions p.state b).2).2)

/-- Feed a whole byte list through the parser from state `p`, collecting
all receiver calls in order. -/
def run (p : Parser) (bytes : List Nat) : Parser × List Event :=
  match bytes with
  | [] => (p, [])
  | b :: rest =>
      ((run (advance p b).1 rest).1, (advance p b).2 ++ (run (advance p b).1 rest).2)

/-- A Unicode scalar value: at most U+10FFFF and not a surrogate half. -/
def ValidScalar (c : Nat) : Prop := c ≤ 0x10FFFF ∧ ¬(0xD800 ≤ c ∧ c ≤ 0xDFFF)

instance : DecidablePred ValidScalar := fun c => by
  unfold ValidScalar; infer_instance

/-- The reachability invariant of the parser: the accumulator is zero in
the ground state, and in every partially-accumulated state it holds only
bits that can still be completed to a valid Unicode scalar value. -/
def Inv (p : Parser) : Prop :=
  match p.state with
  | .Ground => p.point = 0
  | .Tail3 => p.point % 0x40000 = 0 ∧ 0x40000 ≤ p.point ∧ p.point ≤ 0xC0000
  | .Tail2 => p.point % 4096 = 0 ∧ p.point < 0x110000 ∧ (p.point < 0xD000 ∨ 0xE000 ≤ p.point)
  | .Tail1 => p.point % 64 = 0 ∧ p.point < 0x110000 ∧ (p.point < 0xD800 ∨ 0xE000 ≤ p.point)
  | .U3_2_e0 => p.point = 0
  | .U3_2_ed => p.point = 0xD000
  | .U4_3_f0 => p.point = 0
  | .U4_3_f4 => p.point = 0x100000

/-- The UTF-8 encoding of a scalar value, per RFC 3629: this is the
claim-side reference encoder (the repository deliberately contains no
encoder), used to state the round-trip property. -/
def encodeUtf8 (v : Nat) : List Nat :=
  if v < 0x80 then [v]
  else if v < 0x800 then [0xC0 + v / 64, 0x80 + v % 64]
  else if v < 0x10000 then [0xE0 + v / 4096, 0x80 + v / 64 % 64, 0x80 + v % 64]
  else [0xF0 + v / 262144, 0x80 + v / 4096 % 64, 0x80 + v / 64 % 64, 0x80 + v % 64]

/-- The `Receiver` trait of `src/utf8/mod.rs`, as a record of two
operations over an arbitrary receiver-state type: `codepoint` is called
with the decoded scalar value, `invalid_sequence` with no argument. -/
structure Receiver (σ : Type) where
  codepoint : σ → Nat → σ
  invalid_sequence : σ → σ

/-- Apply one recorded receiver call to a receiver state. -/
def applyEvent {σ : Type} (R : Receiver σ) (r : σ) (e : Event) : σ :=
  match e with
  | .codepoint c => R.codepoint r c
  | .invalidSequence => R.invalid_sequence r

/-- `Parser::perform_action` again, this time threading an explicit
receiver and its state exactly as the source calls `receiver.codepoint`
and `receiver.invalid_sequence`. -/
def performActionR {σ : Type} (R : Receiver σ) (p : Parser) (r : σ) (byte : Nat)
    (action : Action) : Parser × σ :=
  match action with
  | .InvalidSequence => ({ p with point := 0 }, R.invalid_sequence r)
  | .EmitByte => (p, R.codepoint r byte)
  | .SetByte1 =>
      ({ p with point := 0 }, R.codepoint r (p.point ||| (byte &&& CONTINUATION_MASK)))
  | .SetByte2 => ({ p with point := p.point ||| ((byte &&& CONTINUATION_MASK) <<< 6) }, r)
  | .SetByte2Top => ({ p with point := p.point ||| ((byte &&& 0b00011111) <<< 6) }, r)
  | .SetByte3 => ({ p with point := p.point ||| ((byte &&& CONTINUATION_MASK) <<< 12) }, r)
  | .SetByte3Top => ({ p with point := p.point ||| ((byte &&& 0b00001111) <<< 12) }, r)
  | .SetByte4 => ({ p with point := p.point ||| ((byte &&& 0b00000111) <<< 18) }, r)

/-- `Parser::advance` threading an explicit receiver. -/
def advanceR {σ : Type} (R : Receiver σ) (p : Parser) (r : σ) (b : Nat) : Parser × σ :=
  ({ (performActionR R p r b (transitions p.state b).2).1 with
      state := (transitions p.state b).1 },
   (performActionR R p r b (transitions p.state b).2).2)

/-- Conversion guard modelled from the spec (§7): an explicitly checked
scalar-value conversion at the codepoint-emitting action, treating an
invalid accumulator value as an unrecoverable internal-invariant failure.
This definition follows the spec's words; the source's `perform_action`
instead converts with the unchecked `char::from_u32_unchecked`. -/
def performActionChecked (p : Parser) (byte : Nat) (action : Action) :
    Except Unit (Parser × List Event) :=
  match action with
  | .SetByte1 =>
      if ValidScalar (p.point ||| (byte &&& CONTINUATION_MASK)) then
        .ok (performAction p byte .SetByte1)
      else .error ()
  | a => .ok (performAction p byte a)

/-- Masking with 63 is reduction modulo 64. -/
theorem and63 (b : Nat) : b &&& 63 = b % 64 := by
  have h := Nat.and_pow_two_sub_one_eq_mod b 6
  norm_num at h
  exact h

/-- Masking with 31 is reduction modulo 32. -/
theorem and31 (b : Nat) : b &&& 31 = b % 32 := by
  have h := Nat.and_pow_two_sub_one_eq_mod b 5
  norm_num at h
  exact h

/-- Masking with 15 is reduction modulo 16. -/
theorem and15 (b : Nat) : b &&& 15 = b % 16 := by
  have h := Nat.and_pow_two_sub_one_eq_mod b 4
  norm_num at h
  exact h

/-- Masking with 7 is reduction modulo 8. -/
theorem and7 (b : Nat) : b &&& 7 = b % 8 := by
  have h := Nat.and_pow_two_sub_one_eq_mod b 3
  norm_num at h
  exact h

/-- Bitwise or of values with disjoint bit ranges is addition. -/
theorem lor_eq_add_of (k p q : Nat) (hp : p % 2 ^ k = 0) (hq : q < 2 ^ k) :
    p ||| q = p + q := by
  conv_lhs => rw [← Nat.mul_div_cancel' (Nat.dvd_of_mod_eq_zero hp)]
  rw [← Nat.mul_add_lt_is_or hq, Nat.mul_div_cancel' (Nat.dvd_of_mod_eq_zero hp)]

/-- Disjoint or at the 6-bit boundary. -/
theorem lor64 (p q : Nat) (hp : p % 64 = 0) (hq : q < 64) : p ||| q = p + q := by
  have h64 : (2 : Nat) ^ 6 = 64 := by norm_num
  exact lor_eq_add_of 6 p q (by rw [h64]; exact hp) (by rw [h64]; exact hq)

/-- Disjoint or at the 12-bit boundary. -/
theorem lor4096 (p q : Nat) (hp : p % 4096 = 0) (hq : q < 4096) : p ||| q = p + q := by
  have h : (2 : Nat) ^ 12 = 4096 := by norm_num
  exact lor_eq_add_of 12 p q (by rw [h]; exact hp) (by rw [h]; exact hq)

/-- Disjoint or at the 18-bit boundary. -/
theorem lor262144 (p q : Nat) (hp : p % 262144 = 0) (hq : q < 262144) : p ||| q = p + q := by
  have h : (2 : Nat) ^ 18 = 262144 := by norm_num
  exact lor_eq_add_of 18 p q (by rw [h]; exact hp) (by rw [h]; exact hq)

/-- Ground-state transition on an ASCII byte: emit it directly. -/
theorem adv_ascii (pt b : Nat) (hb : b ≤ 0x7F) :
    advance ⟨pt, .Ground⟩ b = (⟨pt, .Ground⟩, [.codepoint b]) := by
  have ht : transitions .Ground b = (.Ground, .EmitByte) := by
    simp only [transitions]
    rw [if_pos (by omega)]
  simp only [advance, ht, performAction]

/-- Ground-state transition on a byte that can begin no sequence. -/
theorem adv_ground_invalid (pt b : Nat) (hb : (0x80 ≤ b ∧ b ≤ 0xC1) ∨ 0xF5 ≤ b) :
    advance ⟨pt, .Ground⟩ b = (⟨0, .Ground⟩, [.invalidSequence]) := by
  have ht : transitions .Ground b = (.Ground, .InvalidSequence) := by
    simp only [transitions]
    repeat' split
    all_goals first | rfl | (exfalso; omega)
  simp only [advance, ht, performAction]

/-- Ground-state transition on a two-byte leading byte 0xC2..0xDF. -/
theorem adv_lead2 (pt b : Nat) (h1 : 0xC2 ≤ b) (h2 : b ≤ 0xDF) :
    advance ⟨pt, .Ground⟩ b = (⟨pt ||| b % 32 * 64, .Tail1⟩, []) := by
  have ht : transitions .Ground b = (.Tail1, .SetByte2Top) := by
    simp only [transitions]
    repeat' split
    all_goals first | rfl | (exfalso; omega)
  simp only [advance, ht, performAction]
  rw [show (0b00011111 : Nat) = 31 from rfl, and31, Nat.shiftLeft_eq]

/-- Ground-state transition on the three-byte leading byte 0xE0. -/
theorem adv_lead3_e0 (pt : Nat) :
    advance ⟨pt, .Ground⟩ 0xE0 = (⟨pt, .U3_2_e0⟩, []) := by
  have ht : transitions .Ground 0xE0 = (.U3_2_e0, .SetByte3Top) := by decide
  simp only [advance, ht, performAction]
  rw [show (0b00001111 : Nat) = 15 from rfl, and15, Nat.shiftLeft_eq]
  norm_num

/-- Ground-state transition on the three-byte leading byte 0xED. -/
theorem adv_lead3_ed (pt : Nat) :
    advance ⟨pt, .Ground⟩ 0xED = (⟨pt ||| 0xD000, .U3_2_ed⟩, []) := by
  have ht : transitions .Ground 0xED = (.U3_2_ed, .SetByte3Top) := by decide
  simp only [advance, ht, performAction]
  rw [show (0b00001111 : Nat) = 15 from rfl, and15, Nat.shiftLeft_eq]

/-- Ground-state transition on a three-byte leading byte other than
0xE0 and 0xED. -/
theorem adv_lead3 (pt b : Nat) (h1 : 0xE1 ≤ b) (h2 : b ≤ 0xEF) (h3 : b ≠ 0xED) :
    advance ⟨pt, .Ground⟩ b = (⟨pt ||| b % 16 * 4096, .Tail2⟩, []) := by
  have ht : transitions .Ground b = (.Tail2, .SetByte3Top) := by
    simp only [transitions]
    repeat' split
    all_goals first | rfl | (exfalso; omega)
  simp only [advance, ht, performAction]
  rw [show (0b00001111 : Nat) = 15 from rfl, and15, Nat.shiftLeft_eq]

/-- Ground-state transition on the four-byte leading byte 0xF0. -/
theorem adv_lead4_f0 (pt : Nat) :
    advance ⟨pt, .Ground⟩ 0xF0 = (⟨pt, .U4_3_f0⟩, []) := by
  have ht : transitions .Ground 0xF0 = (.U4_3_f0, .SetByte4) := by decide
  simp only [advance, ht, performAction]
  rw [show (0b00000111 : Nat) = 7 from rfl, and7, Nat.shiftLeft_eq]
  norm_num

/-- Ground-state transition on a four-byte leading byte 0xF1..0xF3. -/
theorem adv_lead4 (pt b : Nat) (h1 : 0xF1 ≤ b) (h2 : b ≤ 0xF3) :
    advance ⟨pt, .Ground⟩ b = (⟨pt ||| b % 8 * 262144, .Tail3⟩, []) := by
  have ht : transitions .Ground b = (.Tail3, .SetByte4) := by
    simp only [transitions]
    repeat' split
    all_goals first | rfl | (exfalso; omega)
  simp only [advance, ht, performAction]
  rw [show (0b00000111 : Nat) = 7 from rfl, and7, Nat.shiftLeft_eq]

/-- Ground-state transition on the four-byte leading byte 0xF4. -/
theorem adv_lead4_f4 (pt : Nat) :
    advance ⟨pt, .Ground⟩ 0xF4 = (⟨pt ||| 0x100000, .U4_3_f4⟩, []) := by
  have ht : transitions .Ground 0xF4 = (.U4_3_f4, .SetByte4) := by decide
  simp only [advance, ht, performAction]
  rw [show (0b00000111 : Nat) = 7 from rfl, and7, Nat.shiftLeft_eq]

/-- Transition from `Tail3` on a continuation byte. -/
theorem adv_tail3 (pt b : Nat) (h1 : 0x80 ≤ b) (h2 : b ≤ 0xBF) :
    advance ⟨pt, .Tail3⟩ b = (⟨pt ||| b % 64 * 4096, .Tail2⟩, []) := by
  have ht : transitions .Tail3 b = (.Tail2, .SetByte3) := by
    simp only [transitions]
    rw [if_pos ⟨h1, h2⟩]
  simp only [advance, ht, performAction]
  rw [show CONTINUATION_MASK = 63 from rfl, and63, Nat.shiftLeft_eq]

/-- Transition from `Tail2` on a continuation byte. -/
theorem adv_tail2 (pt b : Nat) (h1 : 0x80 ≤ b) (h2 : b ≤ 0xBF) :
    advance ⟨pt, .Tail2⟩ b = (⟨pt ||| b % 64 * 64, .Tail1⟩, []) := by
  have ht : transitions .Tail2 b = (.Tail1, .SetByte2) := by
    simp only [transitions]
    rw [if_pos ⟨h1, h2⟩]
  simp only [advance, ht, performAction]
  rw [show CONTINUATION_MASK = 63 from rfl, and63, Nat.shiftLeft_eq]

/-- Transition from `Tail1` on a continuation byte: the codepoint is
emitted and the accumulator resets. -/
theorem adv_tail1 (pt b : Nat) (h1 : 0x80 ≤ b) (h2 : b ≤ 0xBF) :
    advance ⟨pt, .Tail1⟩ b = (⟨0, .Ground⟩, [.codepoint (pt ||| b % 64)]) := by
  have ht : transitions .Tail1 b = (.Ground, .SetByte1) := by
    simp only [transitions]
    rw [if_pos ⟨h1, h2⟩]
  simp only [advance, ht, performAction]
  rw [show CONTINUATION_MASK = 63 from rfl, and63]

/-- Transition from `U3_2_e0` on a legally restricted second byte. -/
theorem adv_e0 (pt b : Nat) (h1 : 0xA0 ≤ b) (h2 : b ≤ 0xBF) :
    advance ⟨pt, .U3_2_e0⟩ b = (⟨pt ||| b % 64 * 64, .Tail1⟩, []) := by
  have ht : transitions .U3_2_e0 b = (.Tail1, .SetByte2) := by
    simp only [transitions]
    rw [if_pos ⟨h1, h2⟩]
  simp only [advance, ht, performAction]
  rw [show CONTINUATION_MASK = 63 from rfl, and63, Nat.shiftLeft_eq]

/-- Transition from `U3_2_ed` on a legally restricted second byte. -/
theorem adv_ed (pt b : Nat) (h1 : 0x80 ≤ b) (h2 : b ≤ 0x9F) :
    advance ⟨pt, .U3_2_ed⟩ b = (⟨pt ||| b % 64 * 64, .Tail1⟩, []) := by
  have ht : transitions .U3_2_ed b = (.Tail1, .SetByte2) := by
    simp only [transitions]
    rw [if_pos ⟨h1, h2⟩]
  simp only [advance, ht, performAction]
  rw [show CONTINUATION_MASK = 63 from rfl, and63, Nat.shiftLeft_eq]

/-- Transition from `U4_3_f0` on a legally restricted second byte. -/
theorem adv_f0 (pt b : Nat) (h1 : 0x90 ≤ b) (h2 : b ≤ 0xBF) :
    advance ⟨pt, .U4_3_f0⟩ b = (⟨pt ||| b % 64 * 4096, .Tail2⟩, []) := by
  have ht : transitions .U4_3_f0 b = (.Tail2, .SetByte3) := by
    simp only [transitions]
    rw [if_pos ⟨h1, h2⟩]
  simp only [advance, ht, performAction]
  rw [show CONTINUATION_MASK = 63 from rfl, and63, Nat.shiftLeft_eq]

/-- Transition from `U4_3_f4` on a legally restricted second byte. -/
theorem adv_f4 (pt b : Nat) (h1 : 0x80 ≤ b) (h2 : b ≤ 0x8F) :
    advance ⟨pt, .U4_3_f4⟩ b = (⟨pt ||| b % 64 * 4096, .Tail2⟩, []) := by
  have ht : transitions .U4_3_f4 b = (.Tail2, .SetByte3) := by
    simp only [transitions]
    rw [if_pos ⟨h1, h2⟩]
  simp only [advance, ht, performAction]
  rw [show CONTINUATION_MASK = 63 from rfl, and63, Nat.shiftLeft_eq]

/-- Any byte outside the legal range of a non-ground state triggers the
invalid-sequence action and a reset to ground with a zero accumulator. -/
theorem adv_nonground_invalid (pt b : Nat) (s : State)
    (h : match s with
      | .Ground => False
      | .Tail3 | .Tail2 | .Tail1 => ¬(0x80 ≤ b ∧ b ≤ 0xBF)
      | .U3_2_e0 => ¬(0xA0 ≤ b ∧ b ≤ 0xBF)
      | .U3_2_ed => ¬(0x80 ≤ b ∧ b ≤ 0x9F)
      | .U4_3_f0 => ¬(0x90 ≤ b ∧ b ≤ 0xBF)
      | .U4_3_f4 => ¬(0x80 ≤ b ∧ b ≤ 0x8F)) :
    advance ⟨pt, s⟩ b = (⟨0, .Ground⟩, [.invalidSequence]) := by
  have ht : transitions s b = (.Ground, .InvalidSequence) := by
    cases s with
    | Ground => exact h.elim
    | Tail3 => simp only [transitions]; rw [if_neg h]
    | Tail2 => simp only [transitions]; rw [if_neg h]
    | Tail1 => simp only [transitions]; rw [if_neg h]
    | U3_2_e0 => simp only [transitions]; rw [if_neg h]
    | U3_2_ed => simp only [transitions]; rw [if_neg h]
    | U4_3_f0 => simp only [transitions]; rw [if_neg h]
    | U4_3_f4 => simp only [transitions]; rw [if_neg h]
  simp only [advance, ht, performAction]

/-- A fresh parser satisfies the invariant. -/
theorem inv_new : Inv Parser.new := by
  simp [Inv, Parser.new]

/-- One decode step preserves the invariant, and every codepoint it emits
is a valid Unicode scalar value. -/
theorem inv_step (p : Parser) (b : Nat) (hp : Inv p) :
    Inv (advance p b).1 ∧ ∀ c, Event.codepoint c ∈ (advance p b).2 → ValidScalar c := by
  obtain ⟨pt, s⟩ := p
  cases s with
  | Ground =>
      simp only [Inv] at hp
      subst hp
      rcases Nat.lt_or_ge b 0x80 with h1 | h1
      · rw [adv_ascii 0 b (by omega)]
        refine ⟨by simp [Inv], ?_⟩
        intro c hc
        simp only [List.mem_singleton, Event.codepoint.injEq] at hc
        subst hc
        simp only [ValidScalar]
        omega
      rcases Nat.lt_or_ge b 0xC2 with h2 | h2
      · rw [adv_ground_invalid 0 b (Or.inl ⟨by omega, by omega⟩)]
        exact ⟨by simp [Inv], by simp⟩
      rcases Nat.lt_or_ge b 0xE0 with h3 | h3
      · rw [adv_lead2 0 b (by omega) (by omega)]
        refine ⟨?_, by simp⟩
        simp only [Inv, Nat.zero_or]
        omega
      by_cases h4 : b = 0xE0
      · subst h4
        rw [adv_lead3_e0 0]
        exact ⟨by simp [Inv], by simp⟩
      by_cases h5 : b = 0xED
      · subst h5
        rw [adv_lead3_ed 0]
        exact ⟨by simp [Inv], by simp⟩
      rcases Nat.lt_or_ge b 0xF0 with h6 | h6
      · rw [adv_lead3 0 b (by omega) (by omega) h5]
        refine ⟨?_, by simp⟩
        simp only [Inv, Nat.zero_or]
        omega
      by_cases h7 : b = 0xF0
      · subst h7
        rw [adv_lead4_f0 0]
        exact ⟨by simp [Inv], by simp⟩
      rcases Nat.lt_or_ge b 0xF4 with h8 | h8
      · rw [adv_lead4 0 b (by omega) (by omega)]
        refine ⟨?_, by simp⟩
        simp only [Inv, Nat.zero_or]
        omega
      by_cases h9 : b = 0xF4
      · subst h9
        rw [adv_lead4_f4 0]
        exact ⟨by simp [Inv], by simp⟩
      · rw [adv_ground_invalid 0 b (Or.inr (by omega))]
        exact ⟨by simp [Inv], by simp⟩
  | Tail3 =>
      simp only [Inv] at hp
      by_cases h : 0x80 ≤ b ∧ b ≤ 0xBF
      · rw [adv_tail3 pt b h.1 h.2]
        refine ⟨?_, by simp⟩
        simp only [Inv]
        rw [lor262144 pt (b % 64 * 4096) hp.1 (by omega)]
        omega
      · rw [adv_nonground_invalid pt b .Tail3 h]
        exact ⟨by simp [Inv], by simp⟩
  | Tail2 =>
      simp only [Inv] at hp
      by_cases h : 0x80 ≤ b ∧ b ≤ 0xBF
      · rw [adv_tail2 pt b h.1 h.2]
        refine ⟨?_, by simp⟩
        simp only [Inv]
        rw [lor4096 pt (b % 64 * 64) hp.1 (by omega)]
        omega
      · rw [adv_nonground_invalid pt b .Tail2 h]
        exact ⟨by simp [Inv], by simp⟩
  | Tail1 =>
      simp only [Inv] at hp
      by_cases h : 0x80 ≤ b ∧ b ≤ 0xBF
      · rw [adv_tail1 pt b h.1 h.2]
        refine ⟨by simp [Inv], ?_⟩
        intro c hc
        simp only [List.mem_singleton, Event.codepoint.injEq] at hc
        subst hc
        rw [lor64 pt (b % 64) hp.1 (by omega)]
        simp only [ValidScalar]
        omega
      · rw [adv_nonground_invalid pt b .Tail1 h]
        exact ⟨by simp [Inv], by simp⟩
  | U3_2_e0 =>
      simp only [Inv] at hp
      subst hp
      by_cases h : 0xA0 ≤ b ∧ b ≤ 0xBF
      · rw [adv_e0 0 b h.1 h.2]
        refine ⟨?_, by simp⟩
        simp only [Inv, Nat.zero_or]
        omega
      · rw [adv_nonground_invalid 0 b .U3_2_e0 h]
        exact ⟨by simp [Inv], by simp⟩
  | U3_2_ed =>
      simp only [Inv] at hp
      subst hp
      by_cases h : 0x80 ≤ b ∧ b ≤ 0x9F
      · rw [adv_ed 0xD000 b h.1 h.2]
        refine ⟨?_, by simp⟩
        simp only [Inv]
        rw [lor4096 0xD000 (b % 64 * 64) (by omega) (by omega)]
        omega
      · rw [adv_nonground_invalid 0xD000 b .U3_2_ed h]
        exact ⟨by simp [Inv], by simp⟩
  | U4_3_f0 =>
      simp only [Inv] at hp
      subst hp
      by_cases h : 0x90 ≤ b ∧ b ≤ 0xBF
      · rw [adv_f0 0 b h.1 h.2]
        refine ⟨?_, by simp⟩
        simp only [Inv, Nat.zero_or]
        omega
      · rw [adv_nonground_invalid 0 b .U4_3_f0 h]
        exact ⟨by simp [Inv], by simp⟩
  | U4_3_f4 =>
      simp only [Inv] at hp
      subst hp
      by_cases h : 0x80 ≤ b ∧ b ≤ 0x8F
      · rw [adv_f4 0x100000 b h.1 h.2]
        refine ⟨?_, by simp⟩
        simp only [Inv]
        rw [lor262144 0x100000 (b % 64 * 4096) (by omega) (by omega)]
        omega
      · rw [adv_nonground_invalid 0x100000 b .U4_3_f4 h]
        exact ⟨by simp [Inv], by simp⟩

/-- Running any byte list from an invariant-satisfying parser preserves
the invariant, and every emitted codepoint is a valid scalar value. -/
theorem inv_run (bytes : List Nat) (p : Parser) (hp : Inv p) :
    Inv (run p bytes).1 ∧ ∀ c, Event.codepoint c ∈ (run p bytes).2 → ValidScalar c := by
  induction bytes generalizing p with
  | nil => exact ⟨hp, by simp [run]⟩
  | cons b rest ih =>
      have h1 := inv_step p b hp
      have h2 := ih (advance p b).1 h1.1
      simp only [run]
      refine ⟨h2.1, ?_⟩
      intro c hc
      rcases List.mem_append.1 hc with hc | hc
      · exact h1.2 c hc
      · exact h2.2 c hc

/-- Running the empty byte list changes nothing. -/
theorem run_nil_eq (p : Parser) : run p [] = (p, []) := rfl

/-- Unfolding one step of `run` through a known `advance` result. -/
theorem run_cons_eq (p p' : Parser) (es : List Event) (b : Nat) (rest : List Nat)
    (h : advance p b = (p', es)) :
    run p (b :: rest) = ((run p' rest).1, es ++ (run p' rest).2) := by
  simp only [run, h]

/-- The fresh parser, in explicit form. -/
theorem parser_new_eq : Parser.new = ⟨0, .Ground⟩ := rfl

/-- Round trip for a one-byte (ASCII) scalar value. -/
theorem roundtrip1 (v : Nat) (h : v < 0x80) :
    (run Parser.new (encodeUtf8 v)).2 = [Event.codepoint v] := by
  have he : encodeUtf8 v = [v] := by
    simp only [encodeUtf8]
    rw [if_pos (by omega)]
  rw [he, parser_new_eq, run_cons_eq _ _ _ _ _ (adv_ascii 0 v (by omega)), run_nil_eq]
  simp

/-- Round trip for a two-byte scalar value. -/
theorem roundtrip2 (v : Nat) (h1 : 0x80 ≤ v) (h2 : v < 0x800) :
    (run Parser.new (encodeUtf8 v)).2 = [Event.codepoint v] := by
  have he : encodeUtf8 v = [0xC0 + v / 64, 0x80 + v % 64] := by
    simp only [encodeUtf8]
    rw [if_neg (by omega), if_pos (by omega)]
  rw [he, parser_new_eq,
    run_cons_eq _ _ _ _ _ (adv_lead2 0 (0xC0 + v / 64) (by omega) (by omega)),
    run_cons_eq _ _ _ _ _ (adv_tail1 _ (0x80 + v % 64) (by omega) (by omega)),
    run_nil_eq]
  simp only [List.nil_append, List.append_nil]
  have hx : (0 ||| (0xC0 + v / 64) % 32 * 64) ||| (0x80 + v % 64) % 64 = v := by
    rw [Nat.zero_or, lor64 _ _ (by omega) (by omega)]
    omega
  rw [hx]

/-- Round trip for a three-byte scalar value led by 0xE0. -/
theorem roundtrip3e0 (v : Nat) (h1 : 0x800 ≤ v) (h2 : v < 0x1000) :
    (run Parser.new (encodeUtf8 v)).2 = [Event.codepoint v] := by
  have he : encodeUtf8 v = [0xE0, 0x80 + v / 64 % 64, 0x80 + v % 64] := by
    simp only [encodeUtf8]
    rw [if_neg (by omega), if_neg (by omega), if_pos (by omega),
      show 0xE0 + v / 4096 = 0xE0 from by omega]
  rw [he, parser_new_eq,
    run_cons_eq _ _ _ _ _ (adv_lead3_e0 0),
    run_cons_eq _ _ _ _ _ (adv_e0 0 (0x80 + v / 64 % 64) (by omega) (by omega)),
    run_cons_eq _ _ _ _ _ (adv_tail1 _ (0x80 + v % 64) (by omega) (by omega)),
    run_nil_eq]
  simp only [List.nil_append, List.append_nil]
  have hx : (0 ||| (0x80 + v / 64 % 64) % 64 * 64) ||| (0x80 + v % 64) % 64 = v := by
    rw [Nat.zero_or, lor64 _ _ (by omega) (by omega)]
    omega
  rw [hx]

/-- Round trip for a three-byte scalar value led by 0xE1..0xEC or
0xEE..0xEF. -/
theorem roundtrip3mid (v : Nat) (h1 : 0x1000 ≤ v) (h2 : v < 0x10000)
    (h3 : v < 0xD000 ∨ 0xE000 ≤ v) :
    (run Parser.new (encodeUtf8 v)).2 = [Event.codepoint v] := by
  have he : encodeUtf8 v = [0xE0 + v / 4096, 0x80 + v / 64 % 64, 0x80 + v % 64] := by
    simp only [encodeUtf8]
    rw [if_neg (by omega), if_neg (by omega), if_pos (by omega)]
  rw [he, parser_new_eq,
    run_cons_eq _ _ _ _ _ (adv_lead3 0 (0xE0 + v / 4096) (by omega) (by omega) (by omega)),
    run_cons_eq _ _ _ _ _ (adv_tail2 _ (0x80 + v / 64 % 64) (by omega) (by omega)),
    run_cons_eq _ _ _ _ _ (adv_tail1 _ (0x80 + v % 64) (by omega) (by omega)),
    run_nil_eq]
  simp only [List.nil_append, List.append_nil]
  have hx : ((0 ||| (0xE0 + v / 4096) % 16 * 4096) ||| (0x80 + v / 64 % 64) % 64 * 64) |||
      (0x80 + v % 64) % 64 = v := by
    have e1 : (0xE0 + v / 4096) % 16 * 4096 ||| (0x80 + v / 64 % 64) % 64 * 64 =
        (0xE0 + v / 4096) % 16 * 4096 + (0x80 + v / 64 % 64) % 64 * 64 :=
      lor4096 _ _ (by omega) (by omega)
    have e2 : (0xE0 + v / 4096) % 16 * 4096 + (0x80 + v / 64 % 64) % 64 * 64 |||
        (0x80 + v % 64) % 64 =
        (0xE0 + v / 4096) % 16 * 4096 + (0x80 + v / 64 % 64) % 64 * 64 + (0x80 + v % 64) % 64 :=
      lor64 _ _ (by omega) (by omega)
    rw [Nat.zero_or, e1, e2]
    omega
  rw [hx]

/-- Round trip for a three-byte scalar value led by 0xED (the range
U+D000..U+D7FF just below the surrogates). -/
theorem roundtrip3ed (v : Nat) (h1 : 0xD000 ≤ v) (h2 : v < 0xD800) :
    (run Parser.new (encodeUtf8 v)).2 = [Event.codepoint v] := by
  have he : encodeUtf8 v = [0xED, 0x80 + v / 64 % 64, 0x80 + v % 64] := by
    simp only [encodeUtf8]
    rw [if_neg (by omega), if_neg (by omega), if_pos (by omega),
      show 0xE0 + v / 4096 = 0xED from by omega]
  rw [he, parser_new_eq,
    run_cons_eq _ _ _ _ _ (adv_lead3_ed 0),
    run_cons_eq _ _ _ _ _ (adv_ed _ (0x80 + v / 64 % 64) (by omega) (by omega)),
    run_cons_eq _ _ _ _ _ (adv_tail1 _ (0x80 + v % 64) (by omega) (by omega)),
    run_nil_eq]
  simp only [List.nil_append, List.append_nil]
  have hx : ((0 ||| 0xD000) ||| (0x80 + v / 64 % 64) % 64 * 64) ||| (0x80 + v % 64) % 64 = v := by
    have e1 : (0xD000 : Nat) ||| (0x80 + v / 64 % 64) % 64 * 64 =
        0xD000 + (0x80 + v / 64 % 64) % 64 * 64 :=
      lor4096 _ _ (by omega) (by omega)
    have e2 : 0xD000 + (0x80 + v / 64 % 64) % 64 * 64 ||| (0x80 + v % 64) % 64 =
        0xD000 + (0x80 + v / 64 % 64) % 64 * 64 + (0x80 + v % 64) % 64 :=
      lor64 _ _ (by omega) (by omega)
    rw [Nat.zero_or, e1, e2]
    omega
  rw [hx]

/-- Round trip for a four-byte scalar value led by 0xF0. -/
theorem roundtrip4f0 (v : Nat) (h1 : 0x10000 ≤ v) (h2 : v < 0x40000) :
    (run Parser.new (encodeUtf8 v)).2 = [Event.codepoint v] := by
  have he : encodeUtf8 v =
      [0xF0, 0x80 + v / 4096 % 64, 0x80 + v / 64 % 64, 0x80 + v % 64] := by
    simp only [encodeUtf8]
    rw [if_neg (by omega), if_neg (by omega), if_neg (by omega),
      show 0xF0 + v / 262144 = 0xF0 from by omega]
  rw [he, parser_new_eq,
    run_cons_eq _ _ _ _ _ (adv_lead4_f0 0),
    run_cons_eq _ _ _ _ _ (adv_f0 0 (0x80 + v / 4096 % 64) (by omega) (by omega)),
    run_cons_eq _ _ _ _ _ (adv_tail2 _ (0x80 + v / 64 % 64) (by omega) (by omega)),
    run_cons_eq _ _ _ _ _ (adv_tail1 _ (0x80 + v % 64) (by omega) (by omega)),
    run_nil_eq]
  simp only [List.nil_append, List.append_nil]
  have hx : (((0 ||| (0x80 + v / 4096 % 64) % 64 * 4096) ||| (0x80 + v / 64 % 64) % 64 * 64) |||
      (0x80 + v % 64) % 64) = v := by
    have e1 : (0x80 + v / 4096 % 64) % 64 * 4096 ||| (0x80 + v / 64 % 64) % 64 * 64 =
        (0x80 + v / 4096 % 64) % 64 * 4096 + (0x80 + v / 64 % 64) % 64 * 64 :=
      lor4096 _ _ (by omega) (by omega)
    have e2 : (0x80 + v / 4096 % 64) % 64 * 4096 + (0x80 + v / 64 % 64) % 64 * 64 |||
        (0x80 + v % 64) % 64 =
        (0x80 + v / 4096 % 64) % 64 * 4096 + (0x80 + v / 64 % 64) % 64 * 64 +
        (0x80 + v % 64) % 64 :=
      lor64 _ _ (by omega) (by omega)
    rw [Nat.zero_or, e1, e2]
    omega
  rw [hx]

/-- Round trip for a four-byte scalar value led by 0xF1..0xF3. -/
theorem roundtrip4mid (v : Nat) (h1 : 0x40000 ≤ v) (h2 : v < 0x100000) :
    (run Parser.new (encodeUtf8 v)).2 = [Event.codepoint v] := by
  have he : encodeUtf8 v =
      [0xF0 + v / 262144, 0x80 + v / 4096 % 64, 0x80 + v / 64 % 64, 0x80 + v % 64] := by
    simp only [encodeUtf8]
    rw [if_neg (by omega), if_neg (by omega), if_neg (by omega)]
  rw [he, parser_new_eq,
    run_cons_eq _ _ _ _ _ (adv_lead4 0 (0xF0 + v / 262144) (by omega) (by omega)),
    run_cons_eq _ _ _ _ _ (adv_tail3 _ (0x80 + v / 4096 % 64) (by omega) (by omega)),
    run_cons_eq _ _ _ _ _ (adv_tail2 _ (0x80 + v / 64 % 64) (by omega) (by omega)),
    run_cons_eq _ _ _ _ _ (adv_tail1 _ (0x80 + v % 64) (by omega) (by omega)),
    run_nil_eq]
  simp only [List.nil_append, List.append_nil]
  have hx : ((((0 ||| (0xF0 + v / 262144) % 8 * 262144) ||| (0x80 + v / 4096 % 64) % 64 * 4096) |||
      (0x80 + v / 64 % 64) % 64 * 64) ||| (0x80 + v % 64) % 64) = v := by
    have e1 : (0xF0 + v / 262144) % 8 * 262144 ||| (0x80 + v / 4096 % 64) % 64 * 4096 =
        (0xF0 + v / 262144) % 8 * 262144 + (0x80 + v / 4096 % 64) % 64 * 4096 :=
      lor262144 _ _ (by omega) (by omega)
    have e2 : (0xF0 + v / 262144) % 8 * 262144 + (0x80 + v / 4096 % 64) % 64 * 4096 |||
        (0x80 + v / 64 % 64) % 64 * 64 =
        (0xF0 + v / 262144) % 8 * 262144 + (0x80 + v / 4096 % 64) % 64 * 4096 +
        (0x80 + v / 64 % 64) % 64 * 64 :=
      lor4096 _ _ (by omega) (by omega)
    have e3 : (0xF0 + v / 262144) % 8 * 262144 + (0x80 + v / 4096 % 64) % 64 * 4096 +
        (0x80 + v / 64 % 64) % 64 * 64 ||| (0x80 + v % 64) % 64 =
        (0xF0 + v / 262144) % 8 * 262144 + (0x80 + v / 4096 % 64) % 64 * 4096 +
        (0x80 + v / 64 % 64) % 64 * 64 + (0x80 + v % 64) % 64 :=
      lor64 _ _ (by omega) (by omega)
    rw [Nat.zero_or, e1, e2, e3]
    omega
  rw [hx]

/-- Round trip for a four-byte scalar value led by 0xF4
(U+100000..U+10FFFF). -/
theorem roundtrip4f4 (v : Nat) (h1 : 0x100000 ≤ v) (h2 : v ≤ 0x10FFFF) :
    (run Parser.new (encodeUtf8 v)).2 = [Event.codepoint v] := by
  have he : encodeUtf8 v =
      [0xF4, 0x80 + v / 4096 % 64, 0x80 + v / 64 % 64, 0x80 + v % 64] := by
    simp only [encodeUtf8]
    rw [if_neg (by omega), if_neg (by omega), if_neg (by omega),
      show 0xF0 + v / 262144 = 0xF4 from by omega]
  rw [he, parser_new_eq,
    run_cons_eq _ _ _ _ _ (adv_lead4_f4 0),
    run_cons_eq _ _ _ _ _ (adv_f4 _ (0x80 + v / 4096 % 64) (by omega) (by omega)),
    run_cons_eq _ _ _ _ _ (adv_tail2 _ (0x80 + v / 64 % 64) (by omega) (by omega)),
    run_cons_eq _ _ _ _ _ (adv_tail1 _ (0x80 + v % 64) (by omega) (by omega)),
    run_nil_eq]
  simp only [List.nil_append, List.append_nil]
  have hx : ((((0 ||| 0x100000) ||| (0x80 + v / 4096 % 64) % 64 * 4096) |||
      (0x80 + v / 64 % 64) % 64 * 64) ||| (0x80 + v % 64) % 64) = v := by
    have e1 : (0x100000 : Nat) ||| (0x80 + v / 4096 % 64) % 64 * 4096 =
        0x100000 + (0x80 + v / 4096 % 64) % 64 * 4096 :=
      lor262144 _ _ (by omega) (by omega)
    have e2 : 0x100000 + (0x80 + v / 4096 % 64) % 64 * 4096 ||| (0x80 + v / 64 % 64) % 64 * 64 =
        0x100000 + (0x80 + v / 4096 % 64) % 64 * 4096 + (0x80 + v / 64 % 64) % 64 * 64 :=
      lor4096 _ _ (by omega) (by omega)
    have e3 : 0x100000 + (0x80 + v / 4096 % 64) % 64 * 4096 + (0x80 + v / 64 % 64) % 64 * 64 |||
        (0x80 + v % 64) % 64 =
        0x100000 + (0x80 + v / 4096 % 64) % 64 * 4096 + (0x80 + v / 64 % 64) % 64 * 64 +
        (0x80 + v % 64) % 64 :=
      lor64 _ _ (by omega) (by omega)
    rw [Nat.zero_or, e1, e2, e3]
    omega
  rw [hx]

/-- The receiver-threading `perform_action` makes exactly the recorded
receiver calls of the event-trace `performAction`. -/
theorem performActionR_eq {σ : Type} (R : Receiver σ) (p : Parser) (r : σ) (b : Nat)
    (a : Action) :
    performActionR R p r b a =
      ((performAction p b a).1, ((performAction p b a).2).foldl (applyEvent R) r) := by
  cases a <;> rfl

/-- The receiver-threading `advance` makes exactly the recorded receiver
calls of the event-trace `advance`, and computes the same parser. -/
theorem advanceR_eq {σ : Type} (R : Receiver σ) (p : Parser) (r : σ) (b : Nat) :
    advanceR R p r b = ((advance p b).1, ((advance p b).2).foldl (applyEvent R) r) := by
  simp only [advanceR, advance, performActionR_eq]

/-- Whenever a transition carries the invalid-sequence action, its next
state is the ground state. -/
theorem invalid_action_to_ground (s : State) (b : Nat)
    (h : (transitions s b).2 = Action.InvalidSequence) :
    transitions s b = (State.Ground, Action.InvalidSequence) := by
  cases s with
  | Ground =>
      by_cases h1 : b ≤ 0x7F
      · simp [transitions, h1] at h
      by_cases h2 : b < 0xC2
      · simp [transitions, h1, h2]
      by_cases h3 : b ≤ 0xDF
      · simp [transitions, h1, h2, h3] at h
      by_cases h4 : b = 0xE0
      · simp [transitions, h1, h2, h3, h4] at h
      by_cases h5 : b = 0xED
      · simp [transitions, h1, h2, h3, h4, h5] at h
      by_cases h6 : b ≤ 0xEF
      · simp [transitions, h1, h2, h3, h4, h5, h6] at h
      by_cases h7 : b = 0xF0
      · simp [transitions, h1, h2, h3, h4, h5, h6, h7] at h
      by_cases h8 : b ≤ 0xF3
      · simp [transitions, h1, h2, h3, h4, h5, h6, h7, h8] at h
      by_cases h9 : b = 0xF4
      · simp [transitions, h1, h2, h3, h4, h5, h6, h7, h8, h9] at h
      · simp [transitions, h1, h2, h3, h4, h5, h6, h7, h8, h9]
  | Tail3 =>
      by_cases hc : 0x80 ≤ b ∧ b ≤ 0xBF
      · simp [transitions, hc] at h
      · simp [transitions, hc]
  | Tail2 =>
      by_cases hc : 0x80 ≤ b ∧ b ≤ 0xBF
      · simp [transitions, hc] at h
      · simp [transitions, hc]
  | Tail1 =>
      by_cases hc : 0x80 ≤ b ∧ b ≤ 0xBF
      · simp [transitions, hc] at h
      · simp [transitions, hc]
  | U3_2_e0 =>
      by_cases hc : 0xA0 ≤ b ∧ b ≤ 0xBF
      · simp [transitions, hc] at h
      · simp [transitions, hc]
  | U3_2_ed =>
      by_cases hc : 0x80 ≤ b ∧ b ≤ 0x9F
      · simp [transitions, hc] at h
      · simp [transitions, hc]
  | U4_3_f0 =>
      by_cases hc : 0x90 ≤ b ∧ b ≤ 0xBF
      · simp [transitions, hc] at h
      · simp [transitions, hc]
  | U4_3_f4 =>
      by_cases hc : 0x80 ≤ b ∧ b ≤ 0x8F
      · simp [transitions, hc] at h
      · simp [transitions, hc]

/-- A parser satisfying the invariant whose state is ground has a zero
accumulator. -/
theorem inv_ground_point (p : Parser) (hi : Inv p) (h : p.state = State.Ground) :
    p.point = 0 := by
  obtain ⟨pt, s⟩ := p
  have h' : s = State.Ground := h
  subst h'
  simpa [Inv] using hi

/-- C1: for every Unicode scalar value v (in U+0000..U+10FFFF, excluding
the surrogate range U+D800..U+DFFF), feeding the bytes of v's UTF-8
encoding one at a time into a freshly constructed `Parser` via `advance`
results in exactly one codepoint notification carrying exactly v and zero
invalid-sequence notifications. -/
theorem claim_c1_roundtrip (v : Nat) (h1 : v ≤ 0x10FFFF)
    (h2 : ¬(0xD800 ≤ v ∧ v ≤ 0xDFFF)) :
    (run Parser.new (encodeUtf8 v)).2 = [Event.codepoint v] := by
  rcases Nat.lt_or_ge v 0x80 with h | h
  · exact roundtrip1 v h
  rcases Nat.lt_or_ge v 0x800 with h' | h'
  · exact roundtrip2 v h h'
  rcases Nat.lt_or_ge v 0x1000 with h'' | h''
  · exact roundtrip3e0 v h' h''
  rcases Nat.lt_or_ge v 0x10000 with h3 | h3
  · rcases Nat.lt_or_ge v 0xD000 with h4 | h4
    · exact roundtrip3mid v h'' h3 (Or.inl h4)
    rcases Nat.lt_or_ge v 0xE000 with h5 | h5
    · exact roundtrip3ed v (by omega) (by omega)
    · exact roundtrip3mid v h'' h3 (Or.inr h5)
  rcases Nat.lt_or_ge v 0x40000 with h6 | h6
  · exact roundtrip4f0 v h3 h6
  rcases Nat.lt_or_ge v 0x100000 with h7 | h7
  · exact roundtrip4mid v h6 h7
  · exact roundtrip4f4 v h7 h1

/-- Witness for C1 at the concrete scalar value U+20AC (the euro sign). -/
theorem claim_c1_roundtrip_witness :
    (0x20AC ≤ 0x10FFFF ∧ ¬(0xD800 ≤ 0x20AC ∧ 0x20AC ≤ 0xDFFF)) ∧
    (run Parser.new (encodeUtf8 0x20AC)).2 = [Event.codepoint 0x20AC] :=
  ⟨⟨by decide, by decide⟩, claim_c1_roundtrip 0x20AC (by decide) (by decide)⟩

/-- C2: for every finite byte sequence fed from a freshly constructed
`Parser`, every value passed to the receiver's codepoint operation is a
valid Unicode scalar value: never a surrogate half and never above
U+10FFFF. -/
theorem claim_c2_valid_scalar (bytes : List Nat) (c : Nat)
    (h : Event.codepoint c ∈ (run Parser.new bytes).2) :
    c ≤ 0x10FFFF ∧ ¬(0xD800 ≤ c ∧ c ≤ 0xDFFF) :=
  (inv_run bytes Parser.new inv_new).2 c h

/-- Witness for C2 on the concrete input byte 0x24. -/
theorem claim_c2_valid_scalar_witness :
    Event.codepoint 0x24 ∈ (run Parser.new [0x24]).2 ∧
    (0x24 ≤ 0x10FFFF ∧ ¬(0xD800 ≤ 0x24 ∧ 0x24 ≤ 0xDFFF)) :=
  ⟨by decide, claim_c2_valid_scalar [0x24] 0x24 (by decide)⟩

/-- C4: a single `advance` call, from any parser state and on any byte,
makes either zero receiver calls, or exactly one codepoint call, or
exactly one invalid-sequence call — never more than one call and never
both kinds. -/
theorem claim_c4_at_most_one_event (p : Parser) (b : Nat) :
    (advance p b).2 = [] ∨ (∃ c, (advance p b).2 = [Event.codepoint c]) ∨
      (advance p b).2 = [Event.invalidSequence] := by
  simp only [advance]
  cases (transitions p.state b).2 with
  | InvalidSequence => exact Or.inr (Or.inr rfl)
  | EmitByte => exact Or.inr (Or.inl ⟨b, rfl⟩)
  | SetByte1 => exact Or.inr (Or.inl ⟨_, rfl⟩)
  | SetByte2 => exact Or.inl rfl
  | SetByte2Top => exact Or.inl rfl
  | SetByte3 => exact Or.inl rfl
  | SetByte3Top => exact Or.inl rfl
  | SetByte4 => exact Or.inl rfl

/-- C5: whenever the transition for (state, byte) carries the
invalid-sequence action, `advance` invokes `invalid_sequence` exactly once
and leaves the parser in the ground state with a zero accumulator; the
step is a total function, so it cannot panic or abort. -/
theorem claim_c5_invalid_resets (p : Parser) (b : Nat)
    (h : (transitions p.state b).2 = Action.InvalidSequence) :
    advance p b = (⟨0, State.Ground⟩, [Event.invalidSequence]) := by
  have ht := invalid_action_to_ground p.state b h
  simp only [advance, ht, performAction]

/-- Witness for C5 on the concrete immediate-error byte 0xFF from a fresh
parser. -/
theorem claim_c5_invalid_resets_witness :
    (transitions Parser.new.state 0xFF).2 = Action.InvalidSequence ∧
    advance Parser.new 0xFF = (⟨0, State.Ground⟩, [Event.invalidSequence]) :=
  ⟨by decide, claim_c5_invalid_resets Parser.new 0xFF (by decide)⟩

/-- C6: in every parser state reachable from a freshly constructed parser
by any sequence of `advance` calls, a ground state implies a zero
accumulator; and a fresh parser starts in the ground state with a zero
accumulator. -/
theorem claim_c6_ground_zero :
    (∀ bytes : List Nat, ((run Parser.new bytes).1).state = State.Ground →
      ((run Parser.new bytes).1).point = 0) ∧
    Parser.new.state = State.Ground ∧ Parser.new.point = 0 :=
  ⟨fun bytes h => inv_ground_point _ (inv_run bytes Parser.new inv_new).1 h, rfl, rfl⟩

/-- Witness for C6 after the concrete byte sequence [0xFF]. -/
theorem claim_c6_ground_zero_witness :
    ((run Parser.new [0xFF]).1).state = State.Ground ∧
    ((run Parser.new [0xFF]).1).point = 0 :=
  ⟨by decide, claim_c6_ground_zero.1 [0xFF] (by decide)⟩

/-- C7: each accumulation action ors the byte's data bits into the
accumulator at the position of the byte's role — a 1-byte sequence passes
the byte through directly without touching the accumulator; 2/3/4-byte
leading bytes contribute their low 5/4/3 bits at positions 6/12/18;
non-final continuation bytes their low 6 bits at positions 12 or 6; the
final continuation byte its low 6 bits at position 0. -/
theorem claim_c7_bit_positions (p : Parser) (b : Nat) :
    performAction p b Action.EmitByte = (p, [Event.codepoint b]) ∧
    performAction p b Action.SetByte2Top =
      ({ p with point := p.point ||| b % 32 * 2 ^ 6 }, []) ∧
    performAction p b Action.SetByte3Top =
      ({ p with point := p.point ||| b % 16 * 2 ^ 12 }, []) ∧
    performAction p b Action.SetByte4 =
      ({ p with point := p.point ||| b % 8 * 2 ^ 18 }, []) ∧
    performAction p b Action.SetByte3 =
      ({ p with point := p.point ||| b % 64 * 2 ^ 12 }, []) ∧
    performAction p b Action.SetByte2 =
      ({ p with point := p.point ||| b % 64 * 2 ^ 6 }, []) ∧
    performAction p b Action.SetByte1 =
      ({ p with point := 0 }, [Event.codepoint (p.point ||| b % 64)]) := by
  refine ⟨rfl, ?_, ?_, ?_, ?_, ?_, ?_⟩ <;>
    simp only [performAction, show CONTINUATION_MASK = 63 from rfl,
      show (0b00011111 : Nat) = 31 from rfl, show (0b00001111 : Nat) = 15 from rfl,
      show (0b00000111 : Nat) = 7 from rfl, and63, and31, and15, and7, Nat.shiftLeft_eq]

/-- C8 counterexample: the byte pair 0xC0, 0x80 does not produce exactly
one invalid-sequence notification — it produces two (0xC0 is rejected
immediately, the parser resets to ground, and there 0x80 is invalid as
well). -/
theorem claim_c8_counterexample :
    ((run Parser.new [0xC0, 0x80]).2).count Event.invalidSequence = 2 ∧
    (run Parser.new [0xC0, 0x80]).2 ≠ [Event.invalidSequence] := by
  refine ⟨by decide, by decide⟩

/-- C8 amended: feeding 0xC0 then 0x80 into a fresh parser produces
exactly two invalid-sequence notifications — one per byte — and zero
codepoint notifications, leaving the parser in ground state with a zero
accumulator. -/
theorem claim_c8_overlong :
    run Parser.new [0xC0, 0x80] =
      (⟨0, State.Ground⟩, [Event.invalidSequence, Event.invalidSequence]) := by
  decide

/-- C9: `advance` is deterministic and its effect on the parser is
independent of the receiver: for any two receivers (over any receiver
state types), the same (state, accumulator) pair and byte yield equal
resulting parsers, and each receiver undergoes exactly the same canonical
sequence of calls `(advance p b).2`, fixed by the parser state and byte
alone. -/
theorem claim_c9_receiver_independence {σ₁ σ₂ : Type} (R₁ : Receiver σ₁) (R₂ : Receiver σ₂)
    (r₁ : σ₁) (r₂ : σ₂) (p : Parser) (b : Nat) :
    (advanceR R₁ p r₁ b).1 = (advanceR R₂ p r₂ b).1 ∧
    (advanceR R₁ p r₁ b).1 = (advance p b).1 ∧
    (advanceR R₁ p r₁ b).2 = ((advance p b).2).foldl (applyEvent R₁) r₁ ∧
    (advanceR R₂ p r₂ b).2 = ((advance p b).2).foldl (applyEvent R₂) r₂ := by
  refine ⟨?_, ?_, ?_, ?_⟩ <;> simp [advanceR_eq]

/-- C10: after `advance`, the parser's state field is exactly the
next-state component of the transition-table entry for (prior state,
byte), and `perform_action` never modifies the state field — the
reset-to-ground on an invalid sequence comes solely from the table's
next-state entries. -/
theorem claim_c10_state_from_table (p : Parser) (b : Nat) :
    ((advance p b).1).state = (transitions p.state b).1 ∧
    ∀ a : Action, ((performAction p b a).1).state = p.state := by
  refine ⟨rfl, ?_⟩
  intro a
  cases a <;> rfl

/-- C3 counterexample: the codepoint-emitting action is not guarded by a
checked conversion — `perform_action` emits the raw accumulator value even
when it is an invalid scalar value (here the surrogate U+D800), where the
spec's checked conversion reports an internal-invariant failure. -/
theorem claim_c3_counterexample :
    (performAction ⟨0xD800, State.Tail1⟩ 0x80 Action.SetByte1).2 =
      [Event.codepoint 0xD800] ∧
    ¬ ValidScalar 0xD800 ∧
    performActionChecked ⟨0xD800, State.Tail1⟩ 0x80 Action.SetByte1 = Except.error () := by
  refine ⟨by decide, by decide, rfl⟩

/-- C3 amended: at the codepoint-emitting action the conversion is an
unchecked one that assumes validity unconditionally — `perform_action`
emits the accumulator value with no guard — and the spec-modelled checked
conversion agrees with it exactly when the accumulator holds a valid
scalar value. -/
theorem claim_c3_unchecked_emission (p : Parser) (b : Nat) :
    performAction p b Action.SetByte1 =
      ({ p with point := 0 }, [Event.codepoint (p.point ||| b % 64)]) ∧
    (ValidScalar (p.point ||| (b &&& CONTINUATION_MASK)) →
      performActionChecked p b Action.SetByte1 =
        Except.ok (performAction p b Action.SetByte1)) := by
  constructor
  · simp only [performAction, show CONTINUATION_MASK = 63 from rfl, and63]
  · intro hv
    simp only [performActionChecked, if_pos hv]

/-- Witness for the amended C3 at a concrete valid accumulator value. -/
theorem claim_c3_unchecked_emission_witness :
    ValidScalar ((Parser.mk 0 State.Tail1).point ||| (0x41 &&& CONTINUATION_MASK)) ∧
    performActionChecked ⟨0, State.Tail1⟩ 0x41 Action.SetByte1 =
      Except.ok (performAction ⟨0, State.Tail1⟩ 0x41 Action.SetByte1) :=
  ⟨by decide, (claim_c3_unchecked_emission ⟨0, State.Tail1⟩ 0x41).2 (by decide)⟩

end VteUtf8
